import Mathlib

/-!
Shallow embedding of the share-allocation and recursive-expense core of the
`api-sky-solutions` backend, together with theorems checking the repository's
natural-language specification against the code.

Conventions:
* JavaScript `Date` values are modelled at day granularity as `Int` — the
  number of days since the Unix epoch (1970-01-01).  Field extraction and the
  `setDate` / `setMonth` / `setFullYear` mutators follow the ECMAScript
  calendar semantics (overflowing fields roll over into the next month/year),
  implemented with the standard civil-calendar conversion algorithms.
* Monetary values (`share_value`, `total_amount`, `amount`) are modelled as
  `Rat`; share counts as `Int`.
* Each route handler is embedded as a pure function on an explicit store
  state; a handler that returns an error response before performing any write
  is embedded as returning `Except` with the error, leaving the state
  untouched, mirroring the early-return structure of the source.
-/

/-- Convert a day count (days since 1970-01-01) to a civil date
`(year, month, day)` with `month ∈ [1,12]`.  Standard civil-calendar
algorithm using floor division for the era so that all `Int` inputs are
handled. -/
def civilFromDays (z0 : Int) : Int × Int × Int :=
  let z := z0 + 719468
  let era := z.fdiv 146097
  let doe := z - era * 146097
  let yoe := (doe - doe / 1460 + doe / 36524 - doe / 146096) / 365
  let y := yoe + era * 400
  let doy := doe - (365 * yoe + yoe / 4 - yoe / 100)
  let mp := (5 * doy + 2) / 153
  let d := doy - (153 * mp + 2) / 5 + 1
  let m := mp + (if mp < 10 then 3 else -9)
  (y + (if m ≤ 2 then 1 else 0), m, d)

/-- Convert a civil date `(year, month ∈ [1,12], day)` to a day count
(days since 1970-01-01).  The `day` field may lie outside the month; it is
added linearly, which is exactly how ECMAScript `Date` resolves overflowing
day-of-month values. -/
def daysFromCivil (y0 m d : Int) : Int :=
  let y := y0 - (if m ≤ 2 then 1 else 0)
  let era := y.fdiv 400
  let yoe := y - era * 400
  let doy := (153 * (m + (if m > 2 then -3 else 9)) + 2) / 5 + d - 1
  let doe := yoe * 365 + yoe / 4 - yoe / 100 + doy
  era * 146097 + doe - 719468

/-- Day count of the civil date `y-m-d` (1-based month), used to write
concrete dates in theorems. -/
def ymd (y m d : Int) : Int := daysFromCivil y m d

/-- `Date.prototype.getFullYear`. -/
def getFullYear (z : Int) : Int := (civilFromDays z).1

/-- `Date.prototype.getMonth` (0-based month, as in JavaScript). -/
def getMonth (z : Int) : Int := (civilFromDays z).2.1 - 1

/-- `Date.prototype.getDate` (day of month, 1-based). -/
def getDate (z : Int) : Int := (civilFromDays z).2.2

/-- Build a date from a year, a 0-based month (may overflow into other
years) and a day (may overflow into other months), with ECMAScript
rollover semantics. -/
def dateFromFields (y m0 d : Int) : Int :=
  daysFromCivil (y + m0.fdiv 12) (m0.fmod 12 + 1) 1 + (d - 1)

/-- `Date.prototype.setDate` (returns the updated date value). -/
def jsSetDate (z d : Int) : Int :=
  dateFromFields (getFullYear z) (getMonth z) d

/-- `Date.prototype.setMonth` (0-based month, returns the updated value). -/
def jsSetMonth (z m0 : Int) : Int :=
  dateFromFields (getFullYear z) m0 (getDate z)

/-- `Date.prototype.setFullYear` (returns the updated value). -/
def jsSetFullYear (z y : Int) : Int :=
  dateFromFields y (getMonth z) (getDate z)

/-- Add `n` days to a date, as `setDate(getDate() + n)` does. -/
def jsAddDays (z n : Int) : Int := jsSetDate z (getDate z + n)

/-- Add `n` calendar months to a date, as `setMonth(getMonth() + n)` does. -/
def jsAddMonths (z n : Int) : Int := jsSetMonth z (getMonth z + n)

/-- Add `n` calendar years to a date, as `setFullYear(getFullYear() + n)`
does. -/
def jsAddYears (z n : Int) : Int := jsSetFullYear z (getFullYear z + n)

/-- The JavaScript idiom `v || 1`: `undefined` and `0` are falsy and give
the default `1`. -/
def orElseOne (v : Option Int) : Int :=
  match v with
  | none => 1
  | some x => if x = 0 then 1 else x

/-- `calculateNextDueDate` from `src/index.ts` / `src/routes/expenses.ts`:
switch on the frequency string, advancing the date by days / 1 month /
3 months / 6 months / 1 year, with an unrecognized frequency falling back
to 1 month. -/
def calculateNextDueDate (currentDueDate : Int) (frequency : String)
    (frequencyValue : Option Int) : Int :=
  match frequency with
  | "days" => jsSetDate currentDueDate (getDate currentDueDate + orElseOne frequencyValue)
  | "month" => jsSetMonth currentDueDate (getMonth currentDueDate + 1)
  | "quarter" => jsSetMonth currentDueDate (getMonth currentDueDate + 3)
  | "half" => jsSetMonth currentDueDate (getMonth currentDueDate + 6)
  | "year" => jsSetFullYear currentDueDate (getFullYear currentDueDate + 1)
  | _ => jsSetMonth currentDueDate (getMonth currentDueDate + 1)

/-! ## Share allocation: data model (`src/models/Business.ts`,
`src/models/ShareRequest.ts`, `src/models/Investment.ts`) -/

/-- `ShareRequest.status` enum. -/
inductive SRStatus
  | pending
  | approved
  | rejected
deriving DecidableEq, Repr

/-- `Business.status` enum. -/
inductive BStatus
  | pending
  | in_review
  | approved
  | rejected
  | active
deriving DecidableEq, Repr

/-- `Business.type` enum. -/
inductive BType
  | submission
  | pub
deriving DecidableEq, Repr

/-- `Investment.status` enum. -/
inductive InvStatus
  | pending
  | approved
  | rejected
deriving DecidableEq, Repr

/-- The `Business` document (share-relevant fields). -/
structure Business where
  id : Nat
  entrepreneur_id : Option Nat := none
  total_shares : Int
  remaining_shares : Int
  share_value : Rat
  minimum_shares_per_request : Option Int := none
  status : BStatus := BStatus.active
  btype : BType := BType.pub
deriving DecidableEq, Repr

/-- The `ShareRequest` document. -/
structure ShareRequest where
  id : Nat
  investor_id : Nat
  business_id : Nat
  requested_shares : Int
  share_value : Rat
  total_amount : Rat
  status : SRStatus := SRStatus.pending
  rejection_reason : Option String := none
deriving DecidableEq, Repr

/-- The `Investment` document. -/
structure Investment where
  id : Nat
  investor_id : Nat
  business_id : Nat
  amount : Rat
  status : InvStatus
deriving DecidableEq, Repr

/-- The ledger store as seen by the share-allocation handlers.  `nextId`
supplies fresh document ids. -/
structure SharesState where
  businesses : List Business
  shareRequests : List ShareRequest
  investments : List Investment
  nextId : Nat
deriving DecidableEq, Repr

/-- Error responses the share handlers can return before mutating anything
(each corresponds to an early `res.status(...).json(...); return`). -/
inductive ShareErr
  | businessNotFound
  | requestNotFound
  | insufficientShares
  | alreadyProcessed
  | exceedsRequested
  | belowMinimumShares
  | duplicatePending
  | notPublicListing
deriving DecidableEq, Repr

/-- `Business.findById`. -/
def findBusiness (s : SharesState) (businessId : Nat) : Option Business :=
  s.businesses.find? (fun b => b.id == businessId)

/-- `ShareRequest.findById`. -/
def findShareRequest (s : SharesState) (shareRequestId : Nat) : Option ShareRequest :=
  s.shareRequests.find? (fun r => r.id == shareRequestId)

/-- `doc.save()` for a business: replace the stored document with this id. -/
def saveBusiness (s : SharesState) (b : Business) : SharesState :=
  { s with businesses := s.businesses.map (fun x => if x.id = b.id then b else x) }

/-- `doc.save()` for a share request: replace the stored document with this
id. -/
def saveShareRequest (s : SharesState) (r : ShareRequest) : SharesState :=
  { s with shareRequests := s.shareRequests.map (fun x => if x.id = r.id then r else x) }

/-- `POST /shares/:businessId/request` (`src/routes/shares.ts`, both
variants are identical here): public-business check, remaining-shares
check, then create the request with a snapshot of `share_value`.  There is
no duplicate-pending check in this handler. -/
def requestShares (s : SharesState) (businessId investorId : Nat)
    (requested_shares : Int) : Except ShareErr SharesState :=
  match findBusiness s businessId with
  | none => .error .businessNotFound
  | some business =>
    if business.btype ≠ BType.pub then .error .businessNotFound
    else if requested_shares > business.remaining_shares then .error .insufficientShares
    else
      let total_amount : Rat := (requested_shares : Rat) * business.share_value
      let shareRequest : ShareRequest :=
        { id := s.nextId, investor_id := investorId, business_id := businessId,
          requested_shares := requested_shares, share_value := business.share_value,
          total_amount := total_amount, status := SRStatus.pending }
      .ok { s with shareRequests := s.shareRequests ++ [shareRequest], nextId := s.nextId + 1 }

/-- `POST /employees/businesses/:id/request-shares`
(`src/routes/employees.ts` lines 760–814, investor flow): finds an active
public business, enforces `minimum_shares_per_request` (skipped when the
field is absent or `0`, which is falsy in JS), rejects when the same
investor already has a pending request for this business, then creates the
request. -/
def requestSharesInvestorFlow (s : SharesState) (businessId investorId : Nat)
    (requested_shares : Int) : Except ShareErr SharesState :=
  match s.businesses.find? (fun b =>
      b.id == businessId && b.status == BStatus.active && b.btype == BType.pub) with
  | none => .error .businessNotFound
  | some business =>
    let minViolated : Bool :=
      match business.minimum_shares_per_request with
      | none => false
      | some m => !(m == 0) && decide (requested_shares < m)
    if minViolated then .error .belowMinimumShares
    else if s.shareRequests.any (fun r =>
        r.investor_id == investorId && r.business_id == businessId &&
        r.status == SRStatus.pending) then
      .error .duplicatePending
    else
      let total_amount : Rat := (requested_shares : Rat) * business.share_value
      let shareRequest : ShareRequest :=
        { id := s.nextId, investor_id := investorId, business_id := businessId,
          requested_shares := requested_shares, share_value := business.share_value,
          total_amount := total_amount, status := SRStatus.pending }
      .ok { s with shareRequests := s.shareRequests ++ [shareRequest], nextId := s.nextId + 1 }

/-- The handler expression `approved_shares || shareRequest.requested_shares`:
an omitted or `0` (falsy) value falls back to the requested count. -/
def finalApproved (approved_shares : Option Int) (requested : Int) : Int :=
  match approved_shares with
  | none => requested
  | some v => if v = 0 then requested else v

/-- `PUT /shares/:shareRequestId/approve` (`src/routes/shares.ts`, guarded
variant): pending guard, approved-vs-requested bound, business lookup,
capacity check against `remaining_shares`, then — in order — save the
request as approved, decrement and save the business, and create the
`Investment` record with `amount = finalApproved × share_value`, status
`approved`.  All error returns occur before the first write. -/
def approveShareRequest (s : SharesState) (shareRequestId : Nat)
    (approved_shares : Option Int) : Except ShareErr SharesState :=
  match findShareRequest s shareRequestId with
  | none => .error .requestNotFound
  | some shareRequest =>
    if shareRequest.status ≠ SRStatus.pending then .error .alreadyProcessed
    else
      let fin := finalApproved approved_shares shareRequest.requested_shares
      if fin > shareRequest.requested_shares then .error .exceedsRequested
      else
        match findBusiness s shareRequest.business_id with
        | none => .error .businessNotFound
        | some business =>
          if fin > business.remaining_shares then .error .insufficientShares
          else
            let investmentAmount : Rat := (fin : Rat) * shareRequest.share_value
            let s1 := saveShareRequest s { shareRequest with status := SRStatus.approved }
            let s2 := saveBusiness s1
              { business with remaining_shares := business.remaining_shares - fin }
            let investment : Investment :=
              { id := s2.nextId, investor_id := shareRequest.investor_id,
                business_id := shareRequest.business_id, amount := investmentAmount,
                status := InvStatus.approved }
            .ok { s2 with
                  investments := s2.investments ++ [investment],
                  nextId := s2.nextId + 1 }

/-- `PUT /shares/:shareRequestId/approve` (unguarded variant file): no
pending guard and no capacity check; it saves the request as approved and
decrements `remaining_shares` by the supplied count unconditionally (and
creates no `Investment`).  The `approved_shares` body field is modelled as
supplied (the handler does not default it; an omitted value would
propagate `NaN`, outside this integer model). -/
def approveShareRequestVariant (s : SharesState) (shareRequestId : Nat)
    (approved_shares : Int) : Except ShareErr SharesState :=
  match findShareRequest s shareRequestId with
  | none => .error .requestNotFound
  | some shareRequest =>
    if approved_shares > shareRequest.requested_shares then .error .exceedsRequested
    else
      match findBusiness s shareRequest.business_id with
      | none => .error .businessNotFound
      | some business =>
        let s1 := saveShareRequest s { shareRequest with status := SRStatus.approved }
        .ok (saveBusiness s1
          { business with remaining_shares := business.remaining_shares - approved_shares })

/-- `PUT /shares/:shareRequestId/reject` (both variant files are
identical): looks the request up and unconditionally saves it as rejected
with the supplied reason — there is no pending-status guard. -/
def rejectShareRequest (s : SharesState) (shareRequestId : Nat)
    (rejection_reason : Option String) : Except ShareErr SharesState :=
  match findShareRequest s shareRequestId with
  | none => .error .requestNotFound
  | some shareRequest =>
    .ok (saveShareRequest s
      { shareRequest with status := SRStatus.rejected, rejection_reason := rejection_reason })

/-- The `total_shares` branch of `PUT /admin/businesses/public/:id`
(`src/routes/admin.ts` lines 256–266), embedded exactly as written: the
handler assigns `business.total_shares = newTotalShares` *first* and only
then computes `ratio = newTotalShares / business.total_shares`, so for a
positive new total the ratio is `1` and `remaining_shares` is left
unchanged; for a non-positive new total `remaining_shares` is set to the
new total. -/
def adminRescaleTotalShares (business : Business) (newTotalShares : Int) : Business :=
  let b1 := { business with total_shares := newTotalShares }
  if b1.total_shares > 0 then
    let ratio : Rat := (newTotalShares : Rat) / (b1.total_shares : Rat)
    { b1 with remaining_shares := ((b1.remaining_shares : Rat) * ratio).floor }
  else
    { b1 with remaining_shares := newTotalShares }

/-- `PUT /admin/businesses/public/:id` restricted to the `total_shares`
edit: not-found and public-listing guards, then the rescale above and a
save.  `total_shares = none` models an absent (falsy) body field, in which
case the business is saved unchanged. -/
def updatePublicBusinessTotalShares (s : SharesState) (businessId : Nat)
    (total_shares : Option Int) : Except ShareErr SharesState :=
  match findBusiness s businessId with
  | none => .error .businessNotFound
  | some business =>
    if business.btype ≠ BType.pub then .error .notPublicListing
    else
      match total_shares with
      | none => .ok (saveBusiness s business)
      | some nt => .ok (saveBusiness s (adminRescaleTotalShares business nt))

/-- The spec's share-inventory invariant for a single business:
`0 ≤ remaining_shares ≤ total_shares`. -/
def sharesInv (b : Business) : Prop :=
  0 ≤ b.remaining_shares ∧ b.remaining_shares ≤ b.total_shares

instance (b : Business) : Decidable (sharesInv b) := by
  unfold sharesInv; infer_instance

/-- The core share operations quantified over by the invariant claim. -/
inductive CoreOp
  | request (businessId investorId : Nat) (requested_shares : Int)
  | requestInvestor (businessId investorId : Nat) (requested_shares : Int)
  | approve (shareRequestId : Nat) (approved_shares : Option Int)
  | reject (shareRequestId : Nat) (reason : Option String)
deriving DecidableEq, Repr

/-- Resulting state of a handler call: the new state on success, the
unchanged input state when the handler returned an error response. -/
def outcome (r : Except ShareErr SharesState) (s : SharesState) : SharesState :=
  match r with
  | .ok s' => s'
  | .error _ => s

/-- Run one core operation against the store. -/
def applyCoreOp (op : CoreOp) (s : SharesState) : SharesState :=
  match op with
  | .request b i r => outcome (requestShares s b i r) s
  | .requestInvestor b i r => outcome (requestSharesInvestorFlow s b i r) s
  | .approve rid v => outcome (approveShareRequest s rid v) s
  | .reject rid reason => outcome (rejectShareRequest s rid reason) s

/-- Side condition under which the guarded approve handler preserves the
inventory bound: the effective approved count is nonnegative (nothing in
the handler checks this; a negative supplied value passes both guards). -/
def approvedNonneg (op : CoreOp) (s : SharesState) : Prop :=
  match op with
  | .approve rid v =>
    ∀ sr, findShareRequest s rid = some sr → 0 ≤ finalApproved v sr.requested_shares
  | _ => True


/-! ## Recurrence engine: data model (`src/models/Expense.ts`) and the
expense handlers (`src/index.ts`, `src/routes/expenses.ts`) -/

/-- `Expense.status` enum. -/
inductive EStatus
  | active
  | paid
  | pending
  | overdue
  | stopped
deriving DecidableEq, Repr

/-- `Expense.type` enum. -/
inductive EType
  | one_time
  | recursive
deriving DecidableEq, Repr

/-- The `Expense` document.  `etype` embeds the schema's `type` field. -/
structure Expense where
  id : Nat
  name : String := ""
  category : String := ""
  amount : Rat := 0
  etype : EType
  priority : String := "medium"
  due_date : Int
  paid_date : Option Int := none
  description : Option String := none
  payment_method : Option String := none
  status : EStatus
  frequency : Option String := none
  frequency_value : Option Int := none
  parent_id : Option Nat := none
  is_active : Bool := true
  created_by : Nat := 0
deriving DecidableEq, Repr

/-- The expense store.  `nextId` supplies fresh document ids. -/
structure ExpenseState where
  expenses : List Expense
  nextId : Nat
deriving DecidableEq, Repr

/-- Error responses of the mark-paid handler. -/
inductive ExpenseErr
  | paymentMethodRequired
  | expenseNotFound
deriving DecidableEq, Repr

/-- `expenseSchema.pre("save")` (`src/models/Expense.ts`): a recursive
expense being saved with status `pending` and a due date already in the
past is stored with status `overdue` instead. -/
def preSave (now : Int) (e : Expense) : Expense :=
  if e.etype = EType.recursive ∧ e.status = EStatus.pending ∧ e.due_date < now then
    { e with status := EStatus.overdue }
  else e

/-- `Expense.create(...)`: append a new document; the pre-save hook runs. -/
def createExpense (now : Int) (s : ExpenseState) (e : Expense) : ExpenseState :=
  { expenses := s.expenses ++ [preSave now e], nextId := s.nextId + 1 }

/-- `doc.save()` for an expense: the pre-save hook runs, then the stored
document with this id is replaced. -/
def saveExpense (now : Int) (s : ExpenseState) (e : Expense) : ExpenseState :=
  { s with expenses := s.expenses.map (fun x => if x.id = e.id then preSave now e else x) }

/-- The sweep's candidate query in `processRecursiveExpenses`:
`type = recursive`, `is_active = true`, `due_date ≤ now`,
`status ∈ {pending, overdue}`. -/
def isDueRecursive (now : Int) (e : Expense) : Bool :=
  decide (e.etype = EType.recursive) && e.is_active && decide (e.due_date ≤ now) &&
    (decide (e.status = EStatus.pending) || decide (e.status = EStatus.overdue))

/-- `expense.parent_id || expense._id`: the chain origin used both as the
successor query key and as the created successor's `parent_id` (flat
chain). -/
def originId (e : Expense) : Nat := e.parent_id.getD e.id

/-- The sweep's `Expense.findOne` existence check: is there a stored
expense with `parent_id = pid`, a strictly later due date and status
`pending`? -/
def existsPendingNextOccurrence (expenses : List Expense) (pid : Nat) (due : Int) : Bool :=
  expenses.any (fun x =>
    decide (x.parent_id = some pid) && decide (due < x.due_date) &&
      decide (x.status = EStatus.pending))

/-- JS truthiness of the optional `frequency` string (absent or empty is
falsy). -/
def freqTruthy (e : Expense) : Bool := !((e.frequency.getD "") == "")

/-- The next due date the handlers compute for an expense:
`calculateNextDueDate(expense.due_date, expense.frequency, expense.frequency_value)`
(an absent frequency reaches the switch's default branch). -/
def nextDueOf (e : Expense) : Int :=
  calculateNextDueDate e.due_date (e.frequency.getD "") e.frequency_value

/-- The successor document built by both the sweep and the mark-paid
handler: next due date from `calculateNextDueDate`, status `pending`
(as passed to `create`; the pre-save hook may still change it), flat
`parent_id`, inheriting the remaining fields from the triggering
expense. -/
def nextOccurrenceOf (freshId : Nat) (e : Expense) : Expense :=
  { id := freshId, name := e.name, category := e.category, amount := e.amount,
    etype := EType.recursive, priority := e.priority,
    due_date := nextDueOf e,
    description := e.description, payment_method := e.payment_method,
    status := EStatus.pending, frequency := e.frequency,
    frequency_value := e.frequency_value, parent_id := some (originId e),
    is_active := true, created_by := e.created_by }

/-- One iteration of the sweep's `for` loop over a snapshot candidate
`expense`: create the successor when no pending successor exists and the
frequency is set (truthy), then flip this expense to `overdue` when it is
past due and still `pending`. -/
def processStep (now : Int) (acc : ExpenseState) (expense : Expense) : ExpenseState :=
  let acc1 :=
    if !existsPendingNextOccurrence acc.expenses (originId expense) expense.due_date
        && freqTruthy expense then
      createExpense now acc (nextOccurrenceOf acc.nextId expense)
    else acc
  if decide (expense.due_date < now) && decide (expense.status = EStatus.pending) then
    saveExpense now acc1 { expense with status := EStatus.overdue }
  else acc1

/-- `processRecursiveExpenses` (`src/index.ts` lines 222–273): query the
candidate snapshot, then run the loop body over it against the live
store. -/
def processRecursiveExpenses (now : Int) (s : ExpenseState) : ExpenseState :=
  (s.expenses.filter (isDueRecursive now)).foldl (processStep now) s

/-- The update document of the mark-paid handler, applied to the stored
expense with the targeted id: status paid, paid_date defaulting to now,
and the payment method (this `findByIdAndUpdate` path does not run the
pre-save hook). -/
def paidUpdate (now : Int) (paid_date : Option Int) (payment_method : Option String)
    (expenseId : Nat) (x : Expense) : Expense :=
  if x.id = expenseId then
    { x with
      status := EStatus.paid, paid_date := some (paid_date.getD now),
      payment_method := payment_method }
  else x

/-- `PATCH /expenses/:expenseId/paid` (`src/routes/expenses.ts` lines
598–663): requires a (truthy) payment method, looks the expense up, and —
when it is recursive and `is_active` — unconditionally creates the next
occurrence (no existence check); finally `findByIdAndUpdate` applies
`paidUpdate` to the stored documents. -/
def markExpensePaid (s : ExpenseState) (now : Int) (expenseId : Nat)
    (paid_date : Option Int) (payment_method : Option String) :
    Except ExpenseErr ExpenseState :=
  if payment_method.getD "" = "" then .error .paymentMethodRequired
  else
    match s.expenses.find? (fun e => e.id == expenseId) with
    | none => .error .expenseNotFound
    | some expense =>
      let s1 :=
        if expense.etype = EType.recursive ∧ expense.is_active then
          createExpense now s (nextOccurrenceOf s.nextId expense)
        else s
      .ok { s1 with expenses := s1.expenses.map (paidUpdate now paid_date payment_method expenseId) }

/-- Store well-formedness: distinct document ids, all below the fresh-id
counter. -/
def expWF (s : ExpenseState) : Prop :=
  (s.expenses.map Expense.id).Nodup ∧ ∀ e ∈ s.expenses, e.id < s.nextId

/-- Resulting expense store of a handler call (unchanged on error). -/
def outcomeE (r : Except ExpenseErr ExpenseState) (s : ExpenseState) : ExpenseState :=
  match r with
  | .ok s' => s'
  | .error _ => s

/-! ## Concrete fixtures used by counterexamples and witnesses -/

/-- A public active business with 100 of 100 shares remaining at value 10. -/
def fixBiz : Business :=
  { id := 1, total_shares := 100, remaining_shares := 100, share_value := 10 }

/-- A pending request by investor 7 for 30 shares of `fixBiz`. -/
def fixReq : ShareRequest :=
  { id := 2, investor_id := 7, business_id := 1, requested_shares := 30,
    share_value := 10, total_amount := 300 }

/-- Store holding `fixBiz` and the pending `fixReq`. -/
def fixState : SharesState :=
  { businesses := [fixBiz], shareRequests := [fixReq], investments := [], nextId := 3 }

/-- `fixState` with the request already approved. -/
def fixStateApproved : SharesState :=
  { fixState with shareRequests := [{ fixReq with status := SRStatus.approved }] }

/-- `fixState` with only 10 shares remaining. -/
def fixStateLow : SharesState :=
  { fixState with businesses := [{ fixBiz with remaining_shares := 10 }] }

/-- 2024-01-10, the reference instant for the expense fixtures. -/
def fixNow : Int := ymd 2024 1 10

/-- A recursive daily expense due 2024-01-01 — more than one period overdue
at `fixNow`. -/
def fixExp : Expense :=
  { id := 0, etype := EType.recursive, due_date := ymd 2024 1 1,
    status := EStatus.pending, frequency := some "days", frequency_value := some 1 }

/-- Store holding only `fixExp`. -/
def fixExpState : ExpenseState := { expenses := [fixExp], nextId := 1 }

/-- A recursive weekly expense due 2024-01-09 — exactly one period overdue
at `fixNow` (its next due date 2024-01-16 is in the future). -/
def fixExpWeekly : Expense :=
  { id := 0, etype := EType.recursive, due_date := ymd 2024 1 9,
    status := EStatus.pending, frequency := some "days", frequency_value := some 7 }

/-- Store holding only `fixExpWeekly`. -/
def fixExpStateWeekly : ExpenseState := { expenses := [fixExpWeekly], nextId := 1 }

/-- A recursive monthly expense due 2024-01-01 (the spec's mark-paid
scenario). -/
def fixExpMonthly : Expense := { fixExp with frequency := some "month" }

/-- Store holding only `fixExpMonthly`. -/
def fixExpStateMonthly : ExpenseState := { expenses := [fixExpMonthly], nextId := 1 }

/-- A pending successor for chain key `pid` strictly after `due` — the
property the sweep's existence query tests document-wise. -/
def isPendingSucc (pid : Nat) (due : Int) (x : Expense) : Prop :=
  x.parent_id = some pid ∧ due < x.due_date ∧ x.status = EStatus.pending

/-- Invariant carried through the sweep's loop: `acc` is the current
store, `L` the still-unprocessed suffix of the candidate snapshot.  Ids
are fresh-bounded and distinct; the unprocessed snapshot documents are
still stored unchanged; and every unprocessed candidate is a due
recursive document with a truthy frequency whose computed next due date
lies strictly after `now`. -/
def SweepInv (now : Int) (acc : ExpenseState) (L : List Expense) : Prop :=
  (∀ x ∈ acc.expenses, x.id < acc.nextId) ∧
  (acc.expenses.map Expense.id).Nodup ∧
  (∀ e ∈ L, e ∈ acc.expenses) ∧
  (L.map Expense.id).Nodup ∧
  (∀ e ∈ L, isDueRecursive now e = true) ∧
  (∀ e ∈ L, freqTruthy e = true) ∧
  (∀ e ∈ L, now < nextDueOf e)

/-! ## Theorems -/

/-- C10 (confirmed): whenever an expense document passes the model's
pre-save hook, a recursive document that is pending with a due date before
the save time is stored as overdue, and consequently no document leaves
the hook recursive, pending and past due. -/
theorem preSave_no_past_due_pending : ∀ (now : Int) (e : Expense),
    (e.etype = EType.recursive → e.status = EStatus.pending → e.due_date < now →
      (preSave now e).status = EStatus.overdue) ∧
    ¬ ((preSave now e).etype = EType.recursive ∧ (preSave now e).status = EStatus.pending ∧
        (preSave now e).due_date < now) := by
  intro now e
  constructor
  · intro h1 h2 h3
    simp [preSave, h1, h2, h3]
  · unfold preSave
    split
    · simp
    · rename_i h
      exact h

/-- C10 witness: the daily expense due 2024-01-01, saved at 2024-01-10, is
stored as overdue. -/
theorem preSave_no_past_due_pending_witness :
    (preSave fixNow fixExp).status = EStatus.overdue :=
  (preSave_no_past_due_pending fixNow fixExp).1 rfl rfl (by decide)

/-- C5 (code_bug): the admin total-shares edit is supposed (per its own
comment) to rescale remaining shares proportionally, but it overwrites
total_shares before computing the ratio, so for every positive new total
the ratio is 1 and remaining_shares is left unchanged; at the failing
input (old total 100, remaining 50, new total 200) the code yields 50
while the specified value floor(50 × 200 / 100) is 100. -/
theorem adminRescaleTotalShares_noop :
    (∀ (b : Business) (nt : Int), 0 < nt →
        (adminRescaleTotalShares b nt).remaining_shares = b.remaining_shares ∧
        (adminRescaleTotalShares b nt).total_shares = nt) ∧
    (adminRescaleTotalShares { fixBiz with remaining_shares := 50 } 200).remaining_shares = 50 ∧
    (50 * 200 : Int) / 100 = 100 ∧ (50 : Int) ≠ 100 := by
  have hgen : ∀ (b : Business) (nt : Int), 0 < nt →
      (adminRescaleTotalShares b nt).remaining_shares = b.remaining_shares ∧
      (adminRescaleTotalShares b nt).total_shares = nt := by
    intro b nt hnt
    unfold adminRescaleTotalShares
    rw [if_pos hnt]
    refine ⟨?_, rfl⟩
    have hnz : (nt : Rat) ≠ 0 := Int.cast_ne_zero.mpr (by omega)
    simp only [div_self hnz, mul_one]
    rw [Rat.floor_def']
    simp
  exact ⟨hgen, (hgen { fixBiz with remaining_shares := 50 } 200 (by decide)).1, by decide, by decide⟩

/-- C5 witness: at the failing input the handler leaves remaining_shares
at 50. -/
theorem adminRescaleTotalShares_noop_witness :
    (adminRescaleTotalShares { fixBiz with remaining_shares := 50 } 200).remaining_shares = 50 :=
  (adminRescaleTotalShares_noop.1 { fixBiz with remaining_shares := 50 } 200 (by decide)).1

/-- C6 counterexample: the claim says the days advance adds exactly
frequencyValue days, defaulting only when the value is unset; but the
handler tests truthiness, so a supplied frequencyValue of 0 adds one day
instead of zero. -/
theorem calculateNextDueDate_zero_value :
    calculateNextDueDate (ymd 2024 1 10) "days" (some 0) = ymd 2024 1 11 ∧
    ymd 2024 1 11 ≠ ymd 2024 1 10 := by decide

/-- C6 (corrected): the full advance table of calculateNextDueDate — days
adds frequencyValue days, falling back to 1 day when the value is unset or
0 (falsy); month/quarter/half add 1/3/6 calendar months; year adds one
calendar year; any unrecognized frequency adds 1 calendar month; and
2024-01-10 + 7 days = 2024-01-17.  Determinism is inherent: the embedding
is a pure function of its three arguments. -/
theorem calculateNextDueDate_table : ∀ (d v : Int) (fv : Option Int),
    (calculateNextDueDate d "days" none = jsAddDays d 1) ∧
    (calculateNextDueDate d "days" (some 0) = jsAddDays d 1) ∧
    (v ≠ 0 → calculateNextDueDate d "days" (some v) = jsAddDays d v) ∧
    (calculateNextDueDate d "month" fv = jsAddMonths d 1) ∧
    (calculateNextDueDate d "quarter" fv = jsAddMonths d 3) ∧
    (calculateNextDueDate d "half" fv = jsAddMonths d 6) ∧
    (calculateNextDueDate d "year" fv = jsAddYears d 1) ∧
    (∀ f : String, f ≠ "days" → f ≠ "month" → f ≠ "quarter" → f ≠ "half" → f ≠ "year" →
      calculateNextDueDate d f fv = jsAddMonths d 1) ∧
    calculateNextDueDate (ymd 2024 1 10) "days" (some 7) = ymd 2024 1 17 := by
  intro d v fv
  refine ⟨rfl, rfl, ?_, rfl, rfl, rfl, rfl, ?_, by decide⟩
  · intro hv
    simp [calculateNextDueDate, jsAddDays, orElseOne, hv]
  · intro f h1 h2 h3 h4 h5
    unfold calculateNextDueDate
    split
    · exact absurd rfl h1
    · exact absurd rfl h2
    · exact absurd rfl h3
    · exact absurd rfl h4
    · exact absurd rfl h5
    · rfl

/-- C6 witness: the table applied at 2024-01-31 with value 7 — a
seven-day advance lands on 2024-02-07, an unrecognized frequency behaves
like a one-month advance (rolling 2024-01-31 over to 2024-03-02), and the
claim's pinned instance 2024-01-10 + 7 days = 2024-01-17 holds. -/
theorem calculateNextDueDate_table_witness :
    calculateNextDueDate (ymd 2024 1 31) "days" (some 7) = jsAddDays (ymd 2024 1 31) 7 ∧
    calculateNextDueDate (ymd 2024 1 31) "weekly" none = jsAddMonths (ymd 2024 1 31) 1 ∧
    calculateNextDueDate (ymd 2024 1 10) "days" (some 7) = ymd 2024 1 17 := by
  obtain ⟨-, -, h3, -, -, -, -, h8, h9⟩ :=
    calculateNextDueDate_table (ymd 2024 1 31) 7 (none : Option Int)
  exact ⟨h3 (by decide), h8 "weekly" (by decide) (by decide) (by decide) (by decide) (by decide),
    h9⟩

/-- C9 counterexample: in a store where investor 7 already has a pending
request for business 1, the shares-route request handler still succeeds
and a second request record is created — the claim's conflict failure does
not happen on this handler. -/
theorem requestShares_no_duplicate_guard :
    fixState.shareRequests.any (fun r =>
        r.investor_id == 7 && r.business_id == 1 && r.status == SRStatus.pending) = true ∧
    (requestShares fixState 1 7 5).isOk = true ∧
    (outcome (requestShares fixState 1 7 5) fixState).shareRequests.length = 2 := by decide

/-- C9 (corrected): the duplicate-pending guard exists only in the
investor-flow handler, which rejects with a conflict error and creates
nothing; the shares-route handler performs no duplicate check and appends
a new pending request whenever the business is public and the requested
count fits in the remaining shares. -/
theorem requestShares_duplicate_guard_amended :
    (∀ (s : SharesState) (bid iid : Nat) (rs : Int) (b : Business),
      s.businesses.find? (fun x =>
          x.id == bid && x.status == BStatus.active && x.btype == BType.pub) = some b →
      (match b.minimum_shares_per_request with
       | none => false
       | some m => !(m == 0) && decide (rs < m)) = false →
      s.shareRequests.any (fun r =>
          r.investor_id == iid && r.business_id == bid && r.status == SRStatus.pending) = true →
      requestSharesInvestorFlow s bid iid rs = .error .duplicatePending) ∧
    (∀ (s : SharesState) (bid iid : Nat) (rs : Int) (b : Business),
      findBusiness s bid = some b → b.btype = BType.pub → ¬ rs > b.remaining_shares →
      requestShares s bid iid rs = .ok { s with
        shareRequests := s.shareRequests ++
          [{ id := s.nextId, investor_id := iid, business_id := bid, requested_shares := rs,
             share_value := b.share_value, total_amount := (rs : Rat) * b.share_value,
             status := SRStatus.pending }],
        nextId := s.nextId + 1 }) := by
  constructor
  · intro s bid iid rs b hfind hmin hdup
    unfold requestSharesInvestorFlow
    rw [hfind]
    simp only [hmin, hdup]
    simp
  · intro s bid iid rs b hfind hpub hcap
    unfold requestShares
    rw [hfind]
    simp [hpub, hcap]

/-- C9 witness: the investor-flow handler rejects the duplicate request in
the fixture store with the conflict error. -/
theorem requestShares_duplicate_guard_witness :
    requestSharesInvestorFlow fixState 1 7 5 = Except.error ShareErr.duplicatePending :=
  requestShares_duplicate_guard_amended.1 fixState 1 7 5 fixBiz rfl rfl (by decide)

/-- C2 counterexample: supplying approvedShares = 0 satisfies the claim's
preconditions (0 ≤ requested, 0 ≤ remaining) and the claim then demands a
decrement by exactly 0; the handler instead treats the falsy 0 as omitted
and decrements by the full requested 30, leaving 70 rather than 100. -/
theorem approveShareRequest_zero_counterexample :
    (0 : Int) ≤ fixReq.requested_shares ∧ (0 : Int) ≤ fixBiz.remaining_shares ∧
    (outcome (approveShareRequest fixState 2 (some 0)) fixState).businesses.map
        Business.remaining_shares = [70] ∧
    (70 : Int) ≠ fixBiz.remaining_shares - 0 := by decide

/-- C2 (corrected): an omitted approvedShares defaults to the requested
count, and a supplied approvedShares also falls back to the requested
count when it is 0 (falsy); for any other supplied value within the
requested count and the remaining shares, approval marks the request
approved, decrements remaining_shares by exactly the effective count, and
appends an approved Investment with amount = count × share_value. -/
theorem approveShareRequest_effects :
    (∀ r : Int, finalApproved (none : Option Int) r = r) ∧
    ∀ (s : SharesState) (rid : Nat) (v : Option Int) (sr : ShareRequest) (b : Business),
      findShareRequest s rid = some sr → sr.status = SRStatus.pending →
      findBusiness s sr.business_id = some b →
      v ≠ some 0 →
      finalApproved v sr.requested_shares ≤ sr.requested_shares →
      finalApproved v sr.requested_shares ≤ b.remaining_shares →
      approveShareRequest s rid v = .ok
        { businesses := s.businesses.map (fun x => if x.id = b.id then
            { b with remaining_shares :=
                b.remaining_shares - finalApproved v sr.requested_shares } else x),
          shareRequests := s.shareRequests.map (fun x => if x.id = sr.id then
            { sr with status := SRStatus.approved } else x),
          investments := s.investments ++
            [{ id := s.nextId, investor_id := sr.investor_id, business_id := sr.business_id,
               amount := (finalApproved v sr.requested_shares : Rat) * sr.share_value,
               status := InvStatus.approved }],
          nextId := s.nextId + 1 } := by
  refine ⟨fun r => rfl, ?_⟩
  intro s rid v sr b hsr hpend hb hnz hle hcap
  simp only [approveShareRequest, hsr, hb]
  rw [if_neg (by simp [hpend])]
  rw [if_neg (by omega)]
  rw [if_neg (by omega)]
  simp [saveBusiness, saveShareRequest]

/-- C2 witness: the spec scenario — Business 100/100 at value 10, pending
request for 30, approved with 20 — yields remaining 80 and an approved
Investment of amount 200. -/
theorem approveShareRequest_effects_witness :
    approveShareRequest fixState 2 (some 20) = Except.ok
      { businesses := [{ fixBiz with remaining_shares := 80 }],
        shareRequests := [{ fixReq with status := SRStatus.approved }],
        investments := [{ id := 3, investor_id := 7, business_id := 1, amount := 200,
                          status := InvStatus.approved }],
        nextId := 4 } := by
  have h := approveShareRequest_effects.2 fixState 2 (some 20) fixReq fixBiz rfl rfl rfl
    (by decide) (by decide) (by decide)
  rw [h]
  norm_num [fixState, fixBiz, fixReq, finalApproved]

/-- C3 counterexample: with 10 shares remaining and 30 requested, an
approval for 50 shares exceeds remaining_shares, yet the handler rejects
it with the approved-exceeds-requested validation error (that guard runs
first), not the claimed capacity error. -/
theorem approveShareRequest_capacity_error_kind :
    fixStateLow.shareRequests.map ShareRequest.status = [SRStatus.pending] ∧
    (50 : Int) > 10 ∧
    approveShareRequest fixStateLow 2 (some 50) = Except.error ShareErr.exceedsRequested ∧
    ShareErr.exceedsRequested ≠ ShareErr.insufficientShares := ⟨by decide, by decide, rfl, by decide⟩

/-- C3 (corrected): when the effective approved count exceeds
remaining_shares the handler fails before any write — with the capacity
error when the count is within the requested amount, and with the
exceeds-requested validation error when that bound is also violated — and
the store is unchanged in either case. -/
theorem approveShareRequest_capacity_amended :
    ∀ (s : SharesState) (rid : Nat) (v : Option Int) (sr : ShareRequest) (b : Business),
      findShareRequest s rid = some sr → sr.status = SRStatus.pending →
      findBusiness s sr.business_id = some b →
      finalApproved v sr.requested_shares > b.remaining_shares →
      approveShareRequest s rid v = .error
        (if finalApproved v sr.requested_shares > sr.requested_shares then
          ShareErr.exceedsRequested
        else ShareErr.insufficientShares) ∧
      outcome (approveShareRequest s rid v) s = s := by
  intro s rid v sr b hsr hpend hb hcap
  have hmain : approveShareRequest s rid v = .error
      (if finalApproved v sr.requested_shares > sr.requested_shares then
        ShareErr.exceedsRequested
      else ShareErr.insufficientShares) := by
    simp only [approveShareRequest, hsr, hb]
    rw [if_neg (by simp [hpend])]
    by_cases hgt : finalApproved v sr.requested_shares > sr.requested_shares
    · rw [if_pos hgt, if_pos hgt]
    · rw [if_neg hgt, if_neg hgt, if_pos hcap]
  exact ⟨hmain, by rw [hmain]; rfl⟩

/-- C3 witness: approving the pending request for 30 (defaulted) against
10 remaining shares fails with the capacity error and leaves the store
unchanged. -/
theorem approveShareRequest_capacity_amended_witness :
    approveShareRequest fixStateLow 2 none = Except.error ShareErr.insufficientShares ∧
    outcome (approveShareRequest fixStateLow 2 none) fixStateLow = fixStateLow := by
  have h := approveShareRequest_capacity_amended fixStateLow 2 none fixReq
    { fixBiz with remaining_shares := 10 } rfl rfl rfl (by decide)
  exact ⟨by simpa using h.1, h.2⟩

/-- C4 counterexample: rejecting a request whose status is already
approved is not refused — the handler succeeds and overwrites the status
to rejected, so the request changes status a second time. -/
theorem rejectShareRequest_no_pending_guard :
    fixStateApproved.shareRequests.map ShareRequest.status = [SRStatus.approved] ∧
    (rejectShareRequest fixStateApproved 2 (some "no")).isOk = true ∧
    (outcome (rejectShareRequest fixStateApproved 2 (some "no")) fixStateApproved).shareRequests.map
        ShareRequest.status = [SRStatus.rejected] := by decide

/-- C4 (corrected): only the guarded approve handler enforces the
pending-to-decided state machine, refusing any non-pending request with a
state error; the reject handler performs no pending check and
unconditionally overwrites the stored request to rejected with the given
reason (touching no business or investment), and the variant approve
handler likewise approves and decrements without a pending guard. -/
theorem shareRequest_transition_guards :
    (∀ (s : SharesState) (rid : Nat) (v : Option Int) (sr : ShareRequest),
      findShareRequest s rid = some sr → sr.status ≠ SRStatus.pending →
      approveShareRequest s rid v = .error ShareErr.alreadyProcessed) ∧
    (∀ (s : SharesState) (rid : Nat) (reason : Option String) (sr : ShareRequest),
      findShareRequest s rid = some sr →
      rejectShareRequest s rid reason = .ok (saveShareRequest s
        { sr with status := SRStatus.rejected, rejection_reason := reason }) ∧
      (saveShareRequest s
        { sr with status := SRStatus.rejected, rejection_reason := reason }).businesses =
        s.businesses ∧
      (saveShareRequest s
        { sr with status := SRStatus.rejected, rejection_reason := reason }).investments =
        s.investments) ∧
    (∀ (s : SharesState) (rid : Nat) (v : Int) (sr : ShareRequest) (b : Business),
      findShareRequest s rid = some sr → sr.status ≠ SRStatus.pending →
      ¬ v > sr.requested_shares → findBusiness s sr.business_id = some b →
      approveShareRequestVariant s rid v = .ok (saveBusiness
        (saveShareRequest s { sr with status := SRStatus.approved })
        { b with remaining_shares := b.remaining_shares - v })) := by
  refine ⟨?_, ?_, ?_⟩
  · intro s rid v sr hsr hpend
    simp only [approveShareRequest, hsr]
    rw [if_pos hpend]
  · intro s rid reason sr hsr
    refine ⟨?_, rfl, rfl⟩
    simp only [rejectShareRequest, hsr]
  · intro s rid v sr b hsr hpend hle hb
    simp only [approveShareRequestVariant, hsr, hb]
    rw [if_neg hle]

/-- C4 witness: on the store whose only request is already approved, the
guarded approve handler refuses with the state error, while reject and
the variant approve both proceed and mutate. -/
theorem shareRequest_transition_guards_witness :
    approveShareRequest fixStateApproved 2 (some 20) = Except.error ShareErr.alreadyProcessed ∧
    rejectShareRequest fixStateApproved 2 (some "no") = Except.ok
      (saveShareRequest fixStateApproved
        { fixReq with status := SRStatus.rejected, rejection_reason := some "no" }) ∧
    approveShareRequestVariant fixStateApproved 2 20 = Except.ok
      (saveBusiness (saveShareRequest fixStateApproved { fixReq with status := SRStatus.approved })
        { fixBiz with remaining_shares := 80 }) := by
  have h1 := shareRequest_transition_guards.1 fixStateApproved 2 (some 20)
    { fixReq with status := SRStatus.approved } rfl (by decide)
  have h2 := shareRequest_transition_guards.2.1 fixStateApproved 2 (some "no")
    { fixReq with status := SRStatus.approved } rfl
  have h3 := shareRequest_transition_guards.2.2 fixStateApproved 2 20
    { fixReq with status := SRStatus.approved } fixBiz rfl (by decide) (by decide) rfl
  exact ⟨h1, h2.1, h3⟩

/-- For a positive new total the admin rescale reduces to just overwriting
total_shares (the ratio it computes is new/new = 1). -/
theorem adminRescale_pos_eq (b : Business) (nt : Int) (hnt : 0 < nt) :
    adminRescaleTotalShares b nt = { b with total_shares := nt } := by
  unfold adminRescaleTotalShares
  rw [if_pos hnt]
  have hnz : (nt : Rat) ≠ 0 := Int.cast_ne_zero.mpr (by omega)
  simp only [div_self hnz, mul_one]
  rw [Rat.floor_def']
  simp

/-- The shares-route request handler never touches the business list. -/
theorem requestShares_preserves_businesses (s : SharesState) (bid iid : Nat) (rs : Int) :
    (outcome (requestShares s bid iid rs) s).businesses = s.businesses := by
  unfold requestShares
  cases hb : findBusiness s bid
  · rfl
  · dsimp only
    split
    · rfl
    · split
      · rfl
      · rfl

/-- The investor-flow request handler never touches the business list. -/
theorem requestSharesInvestorFlow_preserves_businesses (s : SharesState) (bid iid : Nat)
    (rs : Int) :
    (outcome (requestSharesInvestorFlow s bid iid rs) s).businesses = s.businesses := by
  unfold requestSharesInvestorFlow
  cases hb : s.businesses.find? (fun b =>
      b.id == bid && b.status == BStatus.active && b.btype == BType.pub)
  · rfl
  · dsimp only
    split
    · rfl
    · split
      · rfl
      · rfl

/-- The reject handler never touches the business list. -/
theorem rejectShareRequest_preserves_businesses (s : SharesState) (rid : Nat)
    (reason : Option String) :
    (outcome (rejectShareRequest s rid reason) s).businesses = s.businesses := by
  unfold rejectShareRequest
  cases hsr : findShareRequest s rid
  · rfl
  · rfl

/-- C1 counterexample: starting from stores whose businesses satisfy
0 ≤ remaining ≤ total, the unguarded approve variant drives
remaining_shares to −20, and an admin total_shares edit from 100 down to
50 leaves remaining_shares at 100 > 50 (the rescale is a no-op), so the
bound does not survive every core operation. -/
theorem sharesInvariant_counterexample :
    sharesInv { fixBiz with remaining_shares := 10 } ∧
    (outcome (approveShareRequestVariant fixStateLow 2 30) fixStateLow).businesses =
      [{ fixBiz with remaining_shares := -20 }] ∧
    ¬ sharesInv { fixBiz with remaining_shares := -20 } ∧
    sharesInv fixBiz ∧
    (outcome (updatePublicBusinessTotalShares fixState 1 (some 50)) fixState).businesses =
      [{ fixBiz with total_shares := 50 }] ∧
    ¬ sharesInv { fixBiz with total_shares := 50 } := by
  refine ⟨by decide, by decide, by decide, by decide, ?_, by decide⟩
  have hup : updatePublicBusinessTotalShares fixState 1 (some 50) =
      .ok (saveBusiness fixState (adminRescaleTotalShares fixBiz 50)) := rfl
  rw [hup, adminRescale_pos_eq fixBiz 50 (by decide)]
  decide

/-- C1 (corrected): the bound 0 ≤ remaining_shares ≤ total_shares is
preserved by both request handlers, by the reject handler, and by the
guarded approve handler provided the effective approved count is
nonnegative; the unguarded approve variant and the admin total_shares
edit are excluded, since they can break the bound. -/
theorem sharesInvariant_preserved :
    ∀ (op : CoreOp) (s : SharesState),
      approvedNonneg op s →
      (∀ b ∈ s.businesses, sharesInv b) →
      ∀ b ∈ (applyCoreOp op s).businesses, sharesInv b := by
  intro op s hok hinv
  cases op with
  | request bid iid rs =>
    show ∀ b ∈ (outcome (requestShares s bid iid rs) s).businesses, sharesInv b
    rw [requestShares_preserves_businesses]
    exact hinv
  | requestInvestor bid iid rs =>
    show ∀ b ∈ (outcome (requestSharesInvestorFlow s bid iid rs) s).businesses, sharesInv b
    rw [requestSharesInvestorFlow_preserves_businesses]
    exact hinv
  | reject rid reason =>
    show ∀ b ∈ (outcome (rejectShareRequest s rid reason) s).businesses, sharesInv b
    rw [rejectShareRequest_preserves_businesses]
    exact hinv
  | approve rid v =>
    show ∀ b ∈ (outcome (approveShareRequest s rid v) s).businesses, sharesInv b
    cases happ : approveShareRequest s rid v with
    | error e => exact hinv
    | ok s' =>
      show ∀ b ∈ s'.businesses, sharesInv b
      unfold approveShareRequest at happ
      cases hsr : findShareRequest s rid
      · simp only [hsr] at happ
        exact Except.noConfusion happ
      · rename_i sr
        simp only [hsr] at happ
        split at happ
        · simp at happ
        · split at happ
          · simp at happ
          · cases hb : findBusiness s sr.business_id
            · simp only [hb] at happ
              exact Except.noConfusion happ
            · rename_i business
              simp only [hb] at happ
              split at happ
              · simp at happ
              · rename_i hcap
                simp only [Except.ok.injEq] at happ
                subst happ
                intro b hbmem
                simp only [saveBusiness, saveShareRequest, List.mem_map] at hbmem
                obtain ⟨x, hx, rfl⟩ := hbmem
                by_cases hid : x.id = business.id
                · rw [if_pos hid]
                  have hmem : business ∈ s.businesses := by
                    unfold findBusiness at hb
                    exact List.mem_of_find?_eq_some hb
                  have h1 := hinv business hmem
                  have h2 := hok sr hsr
                  unfold sharesInv at h1 ⊢
                  dsimp only
                  exact ⟨by omega, by omega⟩
                · rw [if_neg hid]
                  exact hinv x hx

/-- C1 witness: approving 20 shares of the 100/100 fixture business keeps
the resulting business (remaining 80) within the bound. -/
theorem sharesInvariant_preserved_witness :
    sharesInv { fixBiz with remaining_shares := 80 } := by
  have h := sharesInvariant_preserved (CoreOp.approve 2 (some 20)) fixState
    (by
      intro sr hsr
      simp [findShareRequest, fixState, fixReq] at hsr
      subst hsr
      decide)
    (by decide)
  exact h { fixBiz with remaining_shares := 80 } (by decide)

/-- C8 counterexample: marking the 2024-01-01 daily expense paid at
2024-03-15 does create a successor with the computed next due date
2024-01-02, but because that date is already past, the pre-save hook
stores the successor as overdue, not pending as the claim states. -/
theorem markExpensePaid_overdue_successor :
    (markExpensePaid fixExpState (ymd 2024 3 15) 0 none (some "cash")).isOk = true ∧
    (outcomeE (markExpensePaid fixExpState (ymd 2024 3 15) 0 none (some "cash"))
        fixExpState).expenses.map Expense.status = [EStatus.paid, EStatus.overdue] ∧
    (outcomeE (markExpensePaid fixExpState (ymd 2024 3 15) 0 none (some "cash"))
        fixExpState).expenses.map Expense.due_date = [ymd 2024 1 1, ymd 2024 1 2] ∧
    EStatus.overdue ≠ EStatus.pending := by decide

/-- C8 (corrected): marking an expense paid sets status paid, paid_date
(defaulting to now) and the payment method; when the expense is recursive
and active it additionally appends exactly one successor — with due date
from calculateNextDueDate, flat parent_id (the expense's parent or its own
id), inheriting name/category/amount/priority/frequency — unconditionally,
with no check for an existing pending successor; the successor is created
with status pending but the model save persists it as overdue when its
due date is already past. -/
theorem markExpensePaid_effects :
    ∀ (s : ExpenseState) (now : Int) (eid : Nat) (pd : Option Int) (pm : Option String)
      (e : Expense),
      pm.getD "" ≠ "" →
      s.expenses.find? (fun x => x.id == eid) = some e →
      (∀ x ∈ s.expenses, x.id < s.nextId) →
      ((e.etype = EType.recursive → e.is_active = true →
        markExpensePaid s now eid pd pm = .ok
          { expenses := s.expenses.map (paidUpdate now pd pm eid) ++
              [preSave now (nextOccurrenceOf s.nextId e)],
            nextId := s.nextId + 1 } ∧
        (nextOccurrenceOf s.nextId e).due_date =
          calculateNextDueDate e.due_date (e.frequency.getD "") e.frequency_value ∧
        (nextOccurrenceOf s.nextId e).parent_id = some (e.parent_id.getD e.id) ∧
        (nextOccurrenceOf s.nextId e).name = e.name ∧
        (nextOccurrenceOf s.nextId e).category = e.category ∧
        (nextOccurrenceOf s.nextId e).amount = e.amount ∧
        (nextOccurrenceOf s.nextId e).priority = e.priority ∧
        (nextOccurrenceOf s.nextId e).frequency = e.frequency ∧
        (preSave now (nextOccurrenceOf s.nextId e)).status =
          (if nextDueOf e < now then EStatus.overdue else EStatus.pending)) ∧
      (¬ (e.etype = EType.recursive ∧ e.is_active = true) →
        markExpensePaid s now eid pd pm = .ok
          { expenses := s.expenses.map (paidUpdate now pd pm eid),
            nextId := s.nextId })) := by
  intro s now eid pd pm e hpm hfind hwf
  have hfresh : ¬ (nextOccurrenceOf s.nextId e).id = eid := by
    have heid := List.find?_some (p := fun (x : Expense) => x.id == eid) hfind
    have hmem : e ∈ s.expenses := List.mem_of_find?_eq_some hfind
    have hlt := hwf e hmem
    simp only [nextOccurrenceOf]
    simp at heid
    omega
  constructor
  · intro hrec hact
    constructor
    · unfold markExpensePaid
      rw [if_neg hpm]
      simp only [hfind]
      rw [if_pos ⟨hrec, hact⟩]
      simp only [createExpense, List.map_append, List.map_cons, List.map_nil]
      rw [show paidUpdate now pd pm eid (preSave now (nextOccurrenceOf s.nextId e)) =
          preSave now (nextOccurrenceOf s.nextId e) from by
        unfold paidUpdate
        rw [if_neg (by unfold preSave; split <;> simpa using hfresh)]]
    · refine ⟨rfl, rfl, rfl, rfl, rfl, rfl, rfl, ?_⟩
      unfold preSave nextOccurrenceOf nextDueOf
      dsimp only
      split
      · rename_i h
        rw [if_pos h.2.2]
      · rename_i h
        rw [if_neg]
        intro hc
        exact h ⟨rfl, rfl, hc⟩
  · intro hnot
    unfold markExpensePaid
    rw [if_neg hpm]
    simp only [hfind]
    rw [if_neg hnot]

/-- C8 witness: the spec scenario — the recursive monthly expense due
2024-01-01 marked paid at 2024-01-05 becomes paid with paid_date
2024-01-05, and exactly one pending successor is created with due date
2024-02-01 and parent_id the origin's id. -/
theorem markExpensePaid_effects_witness :
    markExpensePaid fixExpStateMonthly (ymd 2024 1 5) 0 (some (ymd 2024 1 5)) (some "cash") =
      Except.ok
        { expenses := [{ fixExpMonthly with
            status := EStatus.paid, paid_date := some (ymd 2024 1 5),
            payment_method := some "cash" },
            { fixExpMonthly with id := 1, due_date := ymd 2024 2 1, parent_id := some 0 }],
          nextId := 2 } ∧
    ymd 2024 2 1 = calculateNextDueDate (ymd 2024 1 1) "month" (some 1) := by
  have h := (markExpensePaid_effects fixExpStateMonthly (ymd 2024 1 5) 0 (some (ymd 2024 1 5))
      (some "cash") fixExpMonthly (by decide) rfl (by decide)).1 rfl rfl
  refine ⟨?_, by decide⟩
  rw [h.1]
  congr 1

theorem preSave_id (now : Int) (e : Expense) : (preSave now e).id = e.id := by
  unfold preSave; split <;> rfl

theorem preSave_parent_id (now : Int) (e : Expense) :
    (preSave now e).parent_id = e.parent_id := by
  unfold preSave; split <;> rfl

theorem preSave_due_date (now : Int) (e : Expense) :
    (preSave now e).due_date = e.due_date := by
  unfold preSave; split <;> rfl

theorem preSave_eq_of_not_pending {e : Expense} (now : Int) (h : e.status ≠ EStatus.pending) :
    preSave now e = e := by
  unfold preSave
  rw [if_neg]
  intro hc
  exact h hc.2.1

theorem isDueRecursive_iff {now : Int} {e : Expense} :
    isDueRecursive now e = true ↔
      e.etype = EType.recursive ∧ e.is_active = true ∧ e.due_date ≤ now ∧
        (e.status = EStatus.pending ∨ e.status = EStatus.overdue) := by
  simp [isDueRecursive, Bool.and_eq_true, Bool.or_eq_true, decide_eq_true_iff, and_assoc]

theorem existsPendingNextOccurrence_iff {l : List Expense} {pid : Nat} {due : Int} :
    existsPendingNextOccurrence l pid due = true ↔ ∃ x ∈ l, isPendingSucc pid due x := by
  simp [existsPendingNextOccurrence, isPendingSucc, List.any_eq_true, Bool.and_eq_true,
    decide_eq_true_iff, and_assoc]

theorem mem_saveExpense_of_ne {st : ExpenseState} {x d : Expense} {now : Int}
    (hx : x ∈ st.expenses) (hne : x.id ≠ d.id) : x ∈ (saveExpense now st d).expenses := by
  unfold saveExpense
  dsimp only
  exact List.mem_map.mpr ⟨x, hx, by rw [if_neg hne]⟩

theorem saveExpense_ids (now : Int) (st : ExpenseState) (d : Expense) :
    (saveExpense now st d).expenses.map Expense.id = st.expenses.map Expense.id := by
  unfold saveExpense
  dsimp only
  rw [List.map_map]
  apply List.map_congr_left
  intro x _
  dsimp only [Function.comp]
  split
  · rename_i h
    rw [preSave_id, h]
  · rfl

theorem mem_processStep_of_ne {now : Int} {acc : ExpenseState} {x e : Expense}
    (hx : x ∈ acc.expenses) (hne : x.id ≠ e.id) :
    x ∈ (processStep now acc e).expenses := by
  unfold processStep
  dsimp only
  split
  · split
    · exact mem_saveExpense_of_ne (List.mem_append_left _ hx) hne
    · exact mem_saveExpense_of_ne hx hne
  · split
    · exact List.mem_append_left _ hx
    · exact hx

theorem processStep_nextId_le (now : Int) (acc : ExpenseState) (e : Expense) :
    acc.nextId ≤ (processStep now acc e).nextId := by
  unfold processStep
  dsimp only
  split
  · split
    · exact Nat.le_succ _
    · exact le_refl _
  · split
    · exact Nat.le_succ _
    · exact le_refl _

theorem saveExpense_mem_id {now : Int} {st : ExpenseState} {d x : Expense}
    (hx : x ∈ (saveExpense now st d).expenses) : ∃ z ∈ st.expenses, x.id = z.id := by
  unfold saveExpense at hx
  dsimp only at hx
  obtain ⟨z, hz, rfl⟩ := List.mem_map.mp hx
  refine ⟨z, hz, ?_⟩
  split
  · rename_i h
    rw [preSave_id, h]
  · rfl

theorem mem_createExpense {now : Int} {st : ExpenseState} {d x : Expense}
    (hx : x ∈ (createExpense now st d).expenses) :
    x ∈ st.expenses ∨ x = preSave now d := by
  unfold createExpense at hx
  dsimp only at hx
  rcases List.mem_append.mp hx with h | h
  · exact Or.inl h
  · exact Or.inr (List.mem_singleton.mp h)

theorem mem_step_id_lt {now : Int} {acc : ExpenseState} {e : Expense}
    (ha : ∀ y ∈ acc.expenses, y.id < acc.nextId) :
    ∀ x ∈ (processStep now acc e).expenses, x.id < (processStep now acc e).nextId := by
  unfold processStep
  dsimp only
  split
  · split
    · intro x hx
      obtain ⟨z, hz, hid⟩ := saveExpense_mem_id hx
      show x.id < acc.nextId + 1
      rcases mem_createExpense hz with h | h
      · have := ha z h
        omega
      · have : z.id = acc.nextId := by rw [h, preSave_id]; rfl
        omega
    · intro x hx
      obtain ⟨z, hz, hid⟩ := saveExpense_mem_id hx
      show x.id < acc.nextId
      have := ha z hz
      omega
  · split
    · intro x hx
      show x.id < acc.nextId + 1
      rcases mem_createExpense hx with h | h
      · have := ha x h
        omega
      · have : x.id = acc.nextId := by rw [h, preSave_id]; rfl
        omega
    · exact ha

theorem step_ids_nodup {now : Int} {acc : ExpenseState} {e : Expense}
    (ha : ∀ y ∈ acc.expenses, y.id < acc.nextId)
    (hb : (acc.expenses.map Expense.id).Nodup) :
    ((processStep now acc e).expenses.map Expense.id).Nodup := by
  have hcreate : ((createExpense now acc (nextOccurrenceOf acc.nextId e)).expenses.map
      Expense.id).Nodup := by
    unfold createExpense
    dsimp only
    rw [List.map_append, List.nodup_append]
    refine ⟨hb, by simp, ?_⟩
    intro a haid hmem2
    simp only [List.map_cons, List.map_nil, List.mem_singleton, preSave_id] at hmem2
    obtain ⟨y, hy, rfl⟩ := List.mem_map.mp haid
    have := ha y hy
    have h2 : (nextOccurrenceOf acc.nextId e).id = acc.nextId := rfl
    omega
  unfold processStep
  dsimp only
  split
  · split
    · rw [saveExpense_ids]
      exact hcreate
    · rw [saveExpense_ids]
      exact hb
  · split
    · exact hcreate
    · exact hb

theorem sweepInv_step {now : Int} {acc : ExpenseState} {e : Expense} {L : List Expense}
    (h : SweepInv now acc (e :: L)) : SweepInv now (processStep now acc e) L := by
  obtain ⟨ha, hb, hc, hd, he, hf, hg⟩ := h
  have hdid : e.id ∉ L.map Expense.id := by
    have : ((e :: L).map Expense.id).Nodup := hd
    simp only [List.map_cons] at this
    exact (List.nodup_cons.mp this).1
  refine ⟨mem_step_id_lt ha, step_ids_nodup ha hb, ?_, ?_, ?_, ?_, ?_⟩
  · intro x hx
    have hxacc : x ∈ acc.expenses := hc x (List.mem_cons_of_mem e hx)
    have hne : x.id ≠ e.id := by
      intro hcontra
      exact hdid (hcontra ▸ List.mem_map_of_mem Expense.id hx)
    exact mem_processStep_of_ne hxacc hne
  · have : ((e :: L).map Expense.id).Nodup := hd
    simp only [List.map_cons] at this
    exact (List.nodup_cons.mp this).2
  · exact fun x hx => he x (List.mem_cons_of_mem e hx)
  · exact fun x hx => hf x (List.mem_cons_of_mem e hx)
  · exact fun x hx => hg x (List.mem_cons_of_mem e hx)

theorem succ_mem_step_of_create {now : Int} {acc : ExpenseState} {e : Expense}
    (hcr : (!existsPendingNextOccurrence acc.expenses (originId e) e.due_date &&
        freqTruthy e) = true)
    (ha : ∀ y ∈ acc.expenses, y.id < acc.nextId) (hmem : e ∈ acc.expenses) :
    preSave now (nextOccurrenceOf acc.nextId e) ∈ (processStep now acc e).expenses := by
  have hne : (preSave now (nextOccurrenceOf acc.nextId e)).id ≠ e.id := by
    rw [preSave_id]
    have h1 : (nextOccurrenceOf acc.nextId e).id = acc.nextId := rfl
    have := ha e hmem
    omega
  have hsucc : preSave now (nextOccurrenceOf acc.nextId e) ∈
      (createExpense now acc (nextOccurrenceOf acc.nextId e)).expenses := by
    unfold createExpense
    dsimp only
    exact List.mem_append_right _ (List.mem_singleton_self _)
  unfold processStep
  dsimp only
  rw [if_pos hcr]
  split
  · exact mem_saveExpense_of_ne hsucc hne
  · exact hsucc

theorem preSave_succ_pending {now : Int} {e : Expense} (k : Nat) (h : now < nextDueOf e) :
    (preSave now (nextOccurrenceOf k e)).status = EStatus.pending := by
  unfold preSave
  rw [if_neg]
  · rfl
  · intro hc
    have hdue : (nextOccurrenceOf k e).due_date = nextDueOf e := rfl
    rw [hdue] at hc
    omega

theorem sweep_fold_witness (now : Int) : ∀ (L : List Expense) (acc : ExpenseState)
    (pid : Nat) (due : Int),
    SweepInv now acc L →
    (∃ w ∈ acc.expenses, isPendingSucc pid due w) →
    ∃ w ∈ (L.foldl (processStep now) acc).expenses, isPendingSucc pid due w := by
  intro L
  induction L with
  | nil =>
    intro acc pid due _ hw
    simpa using hw
  | cons e L ih =>
    intro acc pid due hinv hw
    obtain ⟨w, hwmem, hwp⟩ := hw
    rw [List.foldl_cons]
    apply ih (processStep now acc e) pid due (sweepInv_step hinv)
    obtain ⟨ha, hb, hc, hd, he, hf, hg⟩ := hinv
    by_cases hwe : w.id = e.id
    · have heacc : e ∈ acc.expenses := hc e (List.mem_cons_self e L)
      have hwe' : w = e := List.inj_on_of_nodup_map hb hwmem heacc hwe
      rw [hwe'] at hwp
      have horig : originId e = pid := by
        unfold originId
        rw [hwp.1]
        rfl
      by_cases hex : existsPendingNextOccurrence acc.expenses (originId e) e.due_date = true
      · obtain ⟨w2, hw2mem, hw2p⟩ := existsPendingNextOccurrence_iff.mp hex
        have hne2 : w2.id ≠ e.id := by
          intro hcontra
          have hweq : w2 = e := List.inj_on_of_nodup_map hb hw2mem heacc hcontra
          rw [hweq] at hw2p
          exact absurd hw2p.2.1 (lt_irrefl _)
        refine ⟨w2, mem_processStep_of_ne hw2mem hne2, ?_, ?_, ?_⟩
        · rw [hw2p.1, horig]
        · exact lt_trans hwp.2.1 hw2p.2.1
        · exact hw2p.2.2
      · have hfr : freqTruthy e = true := hf e (List.mem_cons_self e L)
        have hcr : (!existsPendingNextOccurrence acc.expenses (originId e) e.due_date &&
            freqTruthy e) = true := by
          simp [hex, hfr]
        have hnext : now < nextDueOf e := hg e (List.mem_cons_self e L)
        have hdueLe : e.due_date ≤ now :=
          (isDueRecursive_iff.mp (he e (List.mem_cons_self e L))).2.2.1
        refine ⟨preSave now (nextOccurrenceOf acc.nextId e),
          succ_mem_step_of_create hcr ha heacc, ?_, ?_, ?_⟩
        · rw [preSave_parent_id]
          show some (originId e) = some pid
          rw [horig]
        · rw [preSave_due_date]
          show due < nextDueOf e
          have := hwp.2.1
          omega
        · exact preSave_succ_pending _ hnext
    · exact ⟨w, mem_processStep_of_ne hwmem hwe, hwp⟩

theorem sweep_fold_establishes (now : Int) : ∀ (L : List Expense) (acc : ExpenseState),
    SweepInv now acc L →
    ∀ e ∈ L, ∃ w ∈ (L.foldl (processStep now) acc).expenses,
      isPendingSucc (originId e) e.due_date w := by
  intro L
  induction L with
  | nil =>
    intro acc _ e hmem
    exact absurd hmem (List.not_mem_nil e)
  | cons c L ih =>
    intro acc hinv e hmem
    rw [List.foldl_cons]
    rcases List.mem_cons.mp hmem with heq | htail
    · subst heq
      obtain ⟨ha, hb, hc, hd, hcand, hf, hg⟩ := hinv
      have heacc : e ∈ acc.expenses := hc e (List.mem_cons_self e L)
      by_cases hex : existsPendingNextOccurrence acc.expenses (originId e) e.due_date = true
      · obtain ⟨w2, hw2mem, hw2p⟩ := existsPendingNextOccurrence_iff.mp hex
        have hne2 : w2.id ≠ e.id := by
          intro hcontra
          have hweq : w2 = e := List.inj_on_of_nodup_map hb hw2mem heacc hcontra
          rw [hweq] at hw2p
          exact absurd hw2p.2.1 (lt_irrefl _)
        exact sweep_fold_witness now L (processStep now acc e) (originId e) e.due_date
          (sweepInv_step ⟨ha, hb, hc, hd, hcand, hf, hg⟩)
          ⟨w2, mem_processStep_of_ne hw2mem hne2, hw2p⟩
      · have hfr : freqTruthy e = true := hf e (List.mem_cons_self e L)
        have hcr : (!existsPendingNextOccurrence acc.expenses (originId e) e.due_date &&
            freqTruthy e) = true := by
          simp [hex, hfr]
        have hnext : now < nextDueOf e := hg e (List.mem_cons_self e L)
        have hdueLe : e.due_date ≤ now :=
          (isDueRecursive_iff.mp (hcand e (List.mem_cons_self e L))).2.2.1
        refine sweep_fold_witness now L (processStep now acc e) (originId e) e.due_date
          (sweepInv_step ⟨ha, hb, hc, hd, hcand, hf, hg⟩)
          ⟨preSave now (nextOccurrenceOf acc.nextId e),
            succ_mem_step_of_create hcr ha heacc, ?_, ?_, ?_⟩
        · rw [preSave_parent_id]
          rfl
        · rw [preSave_due_date]
          show e.due_date < nextDueOf e
          omega
        · exact preSave_succ_pending _ hnext
    · exact ih (processStep now acc c) (sweepInv_step hinv) e htail

theorem mem_step_decomp {now : Int} {acc : ExpenseState} {c x : Expense}
    (ha : ∀ y ∈ acc.expenses, y.id < acc.nextId)
    (hb : (acc.expenses.map Expense.id).Nodup)
    (hcmem : c ∈ acc.expenses)
    (hx : x ∈ (processStep now acc c).expenses) :
    (x ∈ acc.expenses ∧ x.id ≠ c.id)
    ∨ (x = { c with status := EStatus.overdue } ∧ c.status = EStatus.pending ∧
        c.due_date < now)
    ∨ (x = c ∧ ¬(c.status = EStatus.pending ∧ c.due_date < now))
    ∨ x = preSave now (nextOccurrenceOf acc.nextId c) := by
  have hsuccid : (preSave now (nextOccurrenceOf acc.nextId c)).id = acc.nextId := by
    rw [preSave_id]
    rfl
  have hcid := ha c hcmem
  unfold processStep at hx
  dsimp only at hx
  split at hx
  · rename_i hflip
    have hflip' : c.status = EStatus.pending ∧ c.due_date < now := by
      have := hflip
      simp [Bool.and_eq_true, decide_eq_true_iff] at this
      exact ⟨this.2, this.1⟩
    unfold saveExpense at hx
    dsimp only at hx
    obtain ⟨z, hz, rfl⟩ := List.mem_map.mp hx
    have hz' : z ∈ acc.expenses ∨ z = preSave now (nextOccurrenceOf acc.nextId c) := by
      split at hz
      · exact mem_createExpense hz
      · exact Or.inl hz
    by_cases hzid : z.id = ({ c with status := EStatus.overdue } : Expense).id
    · rw [if_pos hzid]
      right
      left
      refine ⟨preSave_eq_of_not_pending now (by intro hcon; cases hcon), hflip'.1, hflip'.2⟩
    · rw [if_neg hzid]
      rcases hz' with h | h
      · exact Or.inl ⟨h, hzid⟩
      · right; right; right
        exact h
  · rename_i hflip
    have hflip' : ¬(c.status = EStatus.pending ∧ c.due_date < now) := by
      intro hcon
      apply hflip
      simp [Bool.and_eq_true, decide_eq_true_iff]
      exact ⟨hcon.2, hcon.1⟩
    have hz' : x ∈ acc.expenses ∨ x = preSave now (nextOccurrenceOf acc.nextId c) := by
      split at hx
      · exact mem_createExpense hx
      · exact Or.inl hx
    rcases hz' with h | h
    · by_cases hzid : x.id = c.id
      · have : x = c := List.inj_on_of_nodup_map hb h hcmem hzid
        right; right; left
        exact ⟨this, hflip'⟩
      · exact Or.inl ⟨h, hzid⟩
    · right; right; right
      exact h

theorem sweep_fold_shape (now : Int) : ∀ (L : List Expense) (acc : ExpenseState),
    SweepInv now acc L →
    ∀ x ∈ (L.foldl (processStep now) acc).expenses,
      (x ∈ acc.expenses ∧ x.id ∉ L.map Expense.id)
      ∨ (∃ y ∈ L, x.id = y.id ∧ x.parent_id = y.parent_id ∧ x.due_date = y.due_date ∧
          ¬(x.status = EStatus.pending ∧ x.due_date < now))
      ∨ now < x.due_date := by
  intro L
  induction L with
  | nil =>
    intro acc _ x hx
    exact Or.inl ⟨by simpa using hx, by simp⟩
  | cons c L ih =>
    intro acc hinv x hx
    rw [List.foldl_cons] at hx
    have hinv' := hinv
    obtain ⟨ha, hb, hc, hd, hcand, hf, hg⟩ := hinv'
    have hcmem : c ∈ acc.expenses := hc c (List.mem_cons_self c L)
    rcases ih (processStep now acc c) (sweepInv_step hinv) x hx with ⟨hmem, hnin⟩ | h2 | h3
    · rcases mem_step_decomp ha hb hcmem hmem with ⟨hacc, hne⟩ | ⟨hxc, hp, hd'⟩ | ⟨hxc, hnf⟩ | hsucc
      · left
        refine ⟨hacc, ?_⟩
        simp only [List.map_cons, List.mem_cons]
        rintro (h | h)
        · exact hne h
        · exact hnin h
      · right; left
        refine ⟨c, List.mem_cons_self c L, ?_, ?_, ?_, ?_⟩
        · rw [hxc]
        · rw [hxc]
        · rw [hxc]
        · rw [hxc]
          intro hcon
          cases hcon.1
      · right; left
        refine ⟨c, List.mem_cons_self c L, ?_, ?_, ?_, ?_⟩
        · rw [hxc]
        · rw [hxc]
        · rw [hxc]
        · rw [hxc]
          exact hnf
      · right; right
        rw [hsucc, preSave_due_date]
        exact hg c (List.mem_cons_self c L)
    · right; left
      obtain ⟨y, hy, hrest⟩ := h2
      exact ⟨y, List.mem_cons_of_mem c hy, hrest⟩
    · right; right
      exact h3

theorem step_id_of {now : Int} {st : ExpenseState} {c : Expense}
    (hhas : existsPendingNextOccurrence st.expenses (originId c) c.due_date = true)
    (hnf : ¬(c.status = EStatus.pending ∧ c.due_date < now)) :
    processStep now st c = st := by
  unfold processStep
  dsimp only
  rw [if_neg, if_neg]
  · intro hcon
    rw [hhas] at hcon
    simp at hcon
  · intro hcon
    simp only [Bool.and_eq_true, decide_eq_true_iff] at hcon
    exact hnf ⟨hcon.2, hcon.1⟩

theorem foldl_step_id (now : Int) (st : ExpenseState) :
    ∀ (L : List Expense), (∀ e ∈ L, processStep now st e = st) →
      L.foldl (processStep now) st = st := by
  intro L
  induction L with
  | nil => intro _; rfl
  | cons c L ih =>
    intro h
    rw [List.foldl_cons, h c (List.mem_cons_self c L)]
    exact ih (fun e he => h e (List.mem_cons_of_mem c he))

/-- C7 (corrected): the sweep is idempotent for well-formed stores
(distinct ids below the id counter) in which every due candidate
(recursive, active, due, pending or overdue) has a truthy frequency and a
computed next due date strictly after now — i.e. no candidate is a full
period or more overdue.  Outside that condition a second run creates
additional successors, as the counterexample shows. -/
theorem processRecursiveExpenses_idempotent :
    ∀ (now : Int) (s : ExpenseState),
      expWF s →
      (∀ e ∈ s.expenses, isDueRecursive now e = true → freqTruthy e = true) →
      (∀ e ∈ s.expenses, isDueRecursive now e = true → now < nextDueOf e) →
      processRecursiveExpenses now (processRecursiveExpenses now s) =
        processRecursiveExpenses now s := by
  intro now s hwf hfreq hnext
  obtain ⟨hnd, hidlt⟩ := hwf
  have hCsub : ∀ e ∈ s.expenses.filter (isDueRecursive now), e ∈ s.expenses :=
    fun e he => (List.mem_filter.mp he).1
  have hCc : ∀ e ∈ s.expenses.filter (isDueRecursive now), isDueRecursive now e = true :=
    fun e he => (List.mem_filter.mp he).2
  have hinv : SweepInv now s (s.expenses.filter (isDueRecursive now)) := by
    refine ⟨hidlt, hnd, hCsub, ?_, hCc, fun e he => hfreq e (hCsub e he) (hCc e he),
      fun e he => hnext e (hCsub e he) (hCc e he)⟩
    have hsub : (s.expenses.filter (isDueRecursive now)).Sublist s.expenses :=
      List.filter_sublist _
    exact hnd.sublist (hsub.map Expense.id)
  have hrun1 : processRecursiveExpenses now s =
      (s.expenses.filter (isDueRecursive now)).foldl (processStep now) s := rfl
  rw [hrun1]
  show processRecursiveExpenses now
      ((s.expenses.filter (isDueRecursive now)).foldl (processStep now) s) =
    (s.expenses.filter (isDueRecursive now)).foldl (processStep now) s
  unfold processRecursiveExpenses
  apply foldl_step_id
  intro c hcf
  have hcmem := (List.mem_filter.mp hcf).1
  have hccand := (List.mem_filter.mp hcf).2
  rcases sweep_fold_shape now (s.expenses.filter (isDueRecursive now)) s hinv c hcmem with
    ⟨hcs, hnin⟩ | ⟨y, hy, hid, hpar, hdue, hnf⟩ | hlt
  · exact absurd (List.mem_map_of_mem Expense.id (List.mem_filter.mpr ⟨hcs, hccand⟩)) hnin
  · have hwit := sweep_fold_establishes now (s.expenses.filter (isDueRecursive now)) s hinv y hy
    have horig : originId c = originId y := by
      unfold originId
      rw [hpar, hid]
    have hhas : existsPendingNextOccurrence
        ((s.expenses.filter (isDueRecursive now)).foldl (processStep now) s).expenses
        (originId c) c.due_date = true := by
      rw [existsPendingNextOccurrence_iff, horig, hdue]
      exact hwit
    exact step_id_of hhas hnf
  · have := (isDueRecursive_iff.mp hccand).2.2.1
    omega

/-- C7 counterexample: a daily expense due 2024-01-01 swept at 2024-01-10
is more than one period overdue, so the successor it spawns is itself past
due and stored overdue; the pending-only existence check then misses it
and a second sweep creates two further documents (4 instead of 2). -/
theorem processRecursiveExpenses_not_idempotent :
    (processRecursiveExpenses fixNow fixExpState).expenses.length = 2 ∧
    (processRecursiveExpenses fixNow (processRecursiveExpenses fixNow fixExpState)).expenses.length = 4 ∧
    processRecursiveExpenses fixNow (processRecursiveExpenses fixNow fixExpState) ≠
      processRecursiveExpenses fixNow fixExpState := by decide

/-- C7 witness: a weekly expense one day overdue — the second sweep at the
same instant changes nothing. -/
theorem processRecursiveExpenses_idempotent_witness :
    processRecursiveExpenses fixNow (processRecursiveExpenses fixNow fixExpStateWeekly) =
      processRecursiveExpenses fixNow fixExpStateWeekly := by
  apply processRecursiveExpenses_idempotent
  · exact ⟨by decide, by decide⟩
  · decide
  · decide
